import Mathlib

/-!
Shallow embedding of the Room-Logger attendance application (src/app.py):
the timestamp model, state resolver, event validator, interval grouper and
export row construction, together with theorems settling the specification
claims about them.

Python strings are modelled as lists of characters (`Str`), Python
`None`-able slots as `Option`, and a Python function that can raise an
uncaught exception is embedded as an `Option`-returning function whose
`none` stands for the raise.
-/

/-- Python strings, modelled as lists of characters. -/
abbrev Str := List Char

/-- Shorthand to write a modelled Python string from a Lean string literal. -/
def str (s : String) : Str := s.data

/-- Python `s.split(sep, 1)` viewed as: the part before the first occurrence
of `sep`, and (when `sep` occurs) the remainder after it. -/
def pySplitFirst (sep : Char) : Str → Option (Str × Str)
  | [] => none
  | c :: cs =>
    if c = sep then some ([], cs)
    else (pySplitFirst sep cs).map (fun p => (c :: p.1, p.2))

/-- Split at a predicate, keeping empty fields: the shape shared by
Python `s.split(sep)` (with `p` testing equality to `sep`) and the
whitespace split. -/
def pySplitPred (p : Char → Bool) : Str → List Str
  | [] => [[]]
  | c :: cs =>
    if p c then [] :: pySplitPred p cs
    else
      match pySplitPred p cs with
      | [] => [[c]]
      | a :: rest => (c :: a) :: rest

/-- Python `s.split(sep)` with a one-character separator: every occurrence
splits, empty fields are kept. -/
def pySplitChar (sep : Char) (s : Str) : List Str :=
  pySplitPred (fun c => c = sep) s

/-- Python `s.split(" ", 2)`: at most two splits, so at most three fields. -/
def pySplit2 (sep : Char) (s : Str) : List Str :=
  match pySplitFirst sep s with
  | none => [s]
  | some (a, rest) =>
    match pySplitFirst sep rest with
    | none => [a, rest]
    | some (b, rest2) => [a, b, rest2]

/-- The whitespace characters Python `str.split()` (no argument) splits on,
restricted to the ASCII ones. -/
def pyIsSpace (c : Char) : Bool :=
  c = ' ' || c = '\t' || c = '\n' || c = '\r' || c = '\x0b' || c = '\x0c'

/-- Python `s.split()` (no argument): split on runs of whitespace and drop
the empty fields. -/
def pySplitWs (s : Str) : List Str :=
  (pySplitPred pyIsSpace s).filter (fun t => !t.isEmpty)

/-- Python `s.startswith(p)`. -/
def pyStartsWith (p s : Str) : Bool := List.isPrefixOf p s

/-- Python `s.upper()` on the ASCII letters. -/
def pyUpper (s : Str) : Str := s.map Char.toUpper

/-- Value of a run of decimal digit characters. -/
def digitsVal (s : Str) : Nat :=
  s.foldl (fun acc c => acc * 10 + (c.toNat - 48)) 0

/-- Tail of Python `int()` digit parsing: digits with single underscores
allowed between digits. `acc` is the value read so far. -/
def pyIntDigitsCore (acc : Nat) : Str → Option Nat
  | [] => some acc
  | c :: cs =>
    if c.isDigit then pyIntDigitsCore (acc * 10 + (c.toNat - 48)) cs
    else if c = '_' then
      match cs with
      | [] => none
      | d :: _ => if d.isDigit then pyIntDigitsCore acc cs else none
    else none

/-- Python `int()` digit-group parsing: at least one digit, underscores only
between digits. -/
def pyIntDigits : Str → Option Nat
  | [] => none
  | c :: cs => if c.isDigit then pyIntDigitsCore (c.toNat - 48) cs else none

/-- Python `int(s)`: surrounding whitespace stripped, an optional sign, then
digits (underscores allowed between digits); `none` models a raised
`ValueError`. -/
def pyInt (s : Str) : Option Int :=
  let t := (s.dropWhile pyIsSpace).reverse.dropWhile pyIsSpace |>.reverse
  match t with
  | '+' :: rest => (pyIntDigits rest).map Int.ofNat
  | '-' :: rest => (pyIntDigits rest).map (fun n => -(n : Int))
  | rest => (pyIntDigits rest).map Int.ofNat

/-- Number of days in a month, with the Gregorian leap rule, as Python's
`datetime` validates dates. -/
def daysInMonth (y m : Nat) : Nat :=
  if m = 2 then
    if (y % 4 = 0 && y % 100 ≠ 0) || y % 400 = 0 then 29 else 28
  else if m = 4 || m = 6 || m = 9 || m = 11 then 30
  else 31

/-- Python `datetime.strptime(s, "%Y-%m-%d")`: exactly four digits of year,
one or two digits of month in 1..12, one or two digits of day, the whole
string consumed, and the day validated against the month; `none` models the
raised `ValueError`. -/
def pyStrptimeYMD (s : Str) : Option (Nat × Nat × Nat) :=
  match pySplitChar '-' s with
  | [ys, ms, ds] =>
    if ys.length = 4 && ys.all Char.isDigit &&
       ms.all Char.isDigit && ds.all Char.isDigit then
      let y := digitsVal ys
      let m := digitsVal ms
      let d := digitsVal ds
      if ((ms.length = 1 && 1 ≤ m && m ≤ 9) || (ms.length = 2 && 1 ≤ m && m ≤ 12)) &&
         ((ds.length = 1 && 1 ≤ d && d ≤ 9) || (ds.length = 2 && 1 ≤ d && d ≤ 31)) &&
         1 ≤ y && d ≤ daysInMonth y m then
        some (y, m, d)
      else none
    else none
  | _ => none

/-- A `datetime` down to minutes, encoded order-preservingly as
`((((year * 100 + month) * 100 + day) * 100 + hour) * 100 + minute`. -/
def encodeDT (y mo d h mi : Nat) : Nat :=
  (((y * 100 + mo) * 100 + d) * 100 + h) * 100 + mi

/-- Python `datetime.min` (year 1, Jan 1, midnight) in the encoding. -/
def datetimeMin : Nat := encodeDT 1 1 1 0 0

/-- The `try` body of `parse_timestamp_for_sorting` (src/app.py:107-141):
`none` collects every failure path (the explicit early `return datetime.min`
for fewer than three fields, and each caught exception). -/
def parse_timestamp_core (timestamp : Str) : Option Nat :=
  match pySplit2 ' ' timestamp with
  | [date_str, time_str, am_pm] =>
    (pyStrptimeYMD date_str).bind (fun ymd =>
      let time_parts := pySplitChar ':' time_str
      (pyInt (time_parts.headD [])).bind (fun hour12 =>
        (match time_parts with
         | _ :: m :: _ => pyInt m
         | _ => some 0).bind (fun minute =>
          let hour : Int :=
            if pyUpper am_pm = str "PM" && hour12 ≠ 12 then hour12 + 12
            else if pyUpper am_pm = str "AM" && hour12 = 12 then 0
            else hour12
          if 0 ≤ hour && hour ≤ 23 && 0 ≤ minute && minute ≤ 59 then
            some (encodeDT ymd.1 ymd.2.1 ymd.2.2 hour.toNat minute.toNat)
          else none)))
  | _ => none

/-- `parse_timestamp_for_sorting` (src/app.py:107-141): every failure path
yields `datetime.min`, so the function is total and never raises. -/
def parse_timestamp_for_sorting (timestamp : Str) : Nat :=
  (parse_timestamp_core timestamp).getD datetimeMin

/-- `extract_date` (src/app.py:104-105): `timestamp.split(" ")[0]`. -/
def extract_date (timestamp : Str) : Str :=
  match pySplitFirst ' ' timestamp with
  | none => timestamp
  | some (a, _) => a

/-- Python `timestamp.split(" ", 1)[1]` as used by the groupers
(src/app.py:365): `none` models the `IndexError` raised when the timestamp
contains no space. -/
def after_first_space (timestamp : Str) : Option Str :=
  (pySplitFirst ' ' timestamp).map (fun p => p.2)

/-- Core of `format_time_without_leading_zero` (src/app.py:321-347) once the
time part and meridiem part have been extracted: split the time part on
`":"`, strip one leading zero from a two-character hour (keeping `"12"`),
keep only hour and minute, and re-append the meridiem when present. -/
def fmtCore (time_part am_pm : Str) : Str :=
  let parts := pySplitChar ':' time_part
  let hour_str := parts.headD []
  let hour : Str :=
    match hour_str with
    | ['0', c] => [c]
    | _ => hour_str
  let minute : Str :=
    match parts with
    | _ :: m :: _ => m
    | _ => []
  hour ++ (':' :: minute) ++ (match am_pm with | [] => [] | _ => ' ' :: am_pm)

/-- `format_time_without_leading_zero` (src/app.py:321-347). `none` models
the `IndexError` of `time_str.split()[0]` when `time_str` contains a space
but consists only of whitespace. -/
def format_time_without_leading_zero (time_str : Str) : Option Str :=
  if time_str.contains ' ' then
    match pySplitWs time_str with
    | [] => none
    | tp :: rest =>
      let am_pm := match rest with | [] => [] | x :: _ => x
      some (fmtCore tp am_pm)
  else some (fmtCore time_str [])

/-- The C-locale month abbreviations `strftime("%b")` renders. -/
def monthAbbr (m : Nat) : Str :=
  match m with
  | 1 => str "Jan" | 2 => str "Feb" | 3 => str "Mar" | 4 => str "Apr"
  | 5 => str "May" | 6 => str "Jun" | 7 => str "Jul" | 8 => str "Aug"
  | 9 => str "Sep" | 10 => str "Oct" | 11 => str "Nov" | 12 => str "Dec"
  | _ => []

/-- Decimal rendering of a natural number. -/
def natToStr (n : Nat) : Str := Nat.toDigits 10 n

/-- Two-digit zero-padded rendering, as `strftime("%d")`, `%I` or `%M`. -/
def pad2 (n : Nat) : Str := if n < 10 then '0' :: natToStr n else natToStr n

/-- `format_date_for_display` (src/app.py:201-215): `"2025-04-15"` becomes
`"Apr. 15"`; on a parse failure the input is returned unchanged. -/
def format_date_for_display (date_str : Str) : Str :=
  match pyStrptimeYMD date_str with
  | none => date_str
  | some (_, mo, d) =>
    let day_str := pad2 d
    let stripped := day_str.dropWhile (fun c => c = '0')
    let day := if stripped.isEmpty then day_str else stripped
    monthAbbr mo ++ ('.' :: ' ' :: day)

/-- An event record (one entry of `logs.json`): the four required fields. -/
structure Log where
  id : Nat
  name : Str
  action : Str
  timestamp : Str
deriving DecidableEq, Repr

/-- The Python action string `"IN"`. -/
def strIN : Str := str "IN"

/-- The Python action string `"OUT"`. -/
def strOUT : Str := str "OUT"

/-- The sort key comparison used by every sorting site
(src/app.py:186,359,778,891): the tuple `(parse_timestamp_for_sorting(ts),
id)` compared lexicographically. -/
def logKeyLe (a b : Log) : Prop :=
  parse_timestamp_for_sorting a.timestamp < parse_timestamp_for_sorting b.timestamp ∨
    (parse_timestamp_for_sorting a.timestamp = parse_timestamp_for_sorting b.timestamp ∧
      a.id ≤ b.id)

instance : DecidableRel logKeyLe := fun a b => by
  unfold logKeyLe; exact inferInstance

instance : IsTotal Log logKeyLe where
  total a b := by unfold logKeyLe; omega

instance : IsTrans Log logKeyLe where
  trans a b c := by unfold logKeyLe; omega

/-- Python `sorted(logs, key=lambda log: (parse_timestamp_for_sorting(
log["timestamp"]), log["id"]))`: the unique stable ascending reordering,
realised by Mathlib's stable insertion sort. -/
def sortLogs (logs : List Log) : List Log :=
  List.insertionSort logKeyLe logs

/-- The scan of `get_state_at_timestamp` (src/app.py:192-197): walk the
sorted logs, taking each action whose instant is at most the target and
breaking at the first later one. -/
def stateScan (target : Nat) : List Log → Str → Str
  | [], state => state
  | l :: ls, state =>
    if parse_timestamp_for_sorting l.timestamp ≤ target then
      stateScan target ls l.action
    else state

/-- `get_state_at_timestamp` (src/app.py:173-199). -/
def get_state_at_timestamp (logs : List Log) (timestamp : Str) : Str :=
  stateScan (parse_timestamp_for_sorting timestamp) (sortLogs logs) strOUT

/-- One `(name, date)` bucket of the grouping `defaultdict`: the key and its
ordered `(action, time)` entries. -/
abbrev Bucket := (Str × Str) × List (Str × Str)

/-- Append a value under a key in the insertion-ordered bucket list, adding
a new key at the end — Python's `defaultdict(list)` with dict insertion
order (src/app.py:354-369). -/
def insertBucket (k : Str × Str) (v : Str × Str) : List Bucket → List Bucket
  | [] => [(k, [v])]
  | (k', vs) :: rest =>
    if k' = k then (k', vs ++ [v]) :: rest
    else (k', vs) :: insertBucket k v rest

/-- The grouping loop shared by `group_logs_csv_style`, `export` and
`export_docx` (src/app.py:362-369, 783-790, 896-903), run over the already
sorted logs: `none` models the `IndexError` of `timestamp.split(" ", 1)[1]`
or of the time formatter. -/
def groupBucketsAux : List Log → List Bucket → Option (List Bucket)
  | [], acc => some acc
  | l :: ls, acc =>
    (after_first_space l.timestamp).bind (fun raw =>
      (format_time_without_leading_zero raw).bind (fun t =>
        groupBucketsAux ls (insertBucket (l.name, extract_date l.timestamp) (l.action, t) acc)))

/-- Sort all logs by `(instant, id)` and bucket them by `(name, date)` in
first-seen order. -/
def groupBuckets (logs_raw : List Log) : Option (List Bucket) :=
  groupBucketsAux (sortLogs logs_raw) []

/-- The pairing scan of `group_logs_csv_style` (src/app.py:374-395), with
`current_in` the `pendingIn` slot. The `OUT` branch tests Python truthiness
(`if current_in:`), so an empty-string pending time falls into the
no-matching-IN branch and is kept in the slot. -/
def buildPairsAux : Option Str → List (Str × Str) → List (Str × Str)
  | current_in, [] =>
    (match current_in with
     | some p => [(p, [])]
     | none => [])
  | current_in, (action, t) :: rest =>
    if action = strIN then
      (match current_in with
       | some p => (p, []) :: buildPairsAux (some t) rest
       | none => buildPairsAux (some t) rest)
    else if action = strOUT then
      (match current_in with
       | some p =>
         if p ≠ [] then (p, t) :: buildPairsAux none rest
         else ([], t) :: buildPairsAux (some p) rest
       | none => ([], t) :: buildPairsAux none rest)
    else buildPairsAux current_in rest

/-- Python `for i in range(0, len(pairs), 4): pairs[i:i+4]`: chunks of at
most four, in order; an empty list yields no chunk. -/
def chunksOf4 : List α → List (List α)
  | [] => []
  | [a] => [[a]]
  | [a, b] => [[a, b]]
  | [a, b, c] => [[a, b, c]]
  | a :: b :: c :: d :: rest => [a, b, c, d] :: chunksOf4 rest

/-- A grouped display row (src/app.py:402): name, formatted date, and one
chunk of up to four interval pairs. -/
abbrev GroupedRow := Str × Str × List (Str × Str)

/-- `group_logs_csv_style` (src/app.py:353-404): sort, bucket, pair each
bucket with the pending-IN scan, and chunk each bucket's pairs into rows of
at most four, buckets in first-seen order. -/
def group_logs_csv_style (logs_raw : List Log) : Option (List GroupedRow) :=
  (groupBuckets logs_raw).map (fun buckets =>
    (buckets.map (fun b =>
      (chunksOf4 (buildPairsAux none b.2)).map (fun chunk =>
        (b.1.1, format_date_for_display b.1.2, chunk)))).flatten)

/-- One bounded run of the row-padding loop: up to `n` more iterations of
`while len(row) < 10: row.extend(["", ""])`. -/
def padLoop : Nat → List Str → List Str
  | 0, row => row
  | n + 1, row => if row.length < 10 then padLoop n (row ++ [[], []]) else row

/-- The `while len(row) < 10: row.extend(["", ""])` padding of the export
routes (src/app.py:840-841, 942-943): each iteration adds two fields, so
five iterations always reach the loop's exit condition, and `padLoop 5` is
the whole loop on every input. -/
def pad_row_to_10 (row : List Str) : List Str := padLoop 5 row

/-- One flat CSV row (src/app.py:835-841): name, formatted date, the chunk's
in/out times, padded to width 10. -/
def flat_row (name date : Str) (chunk : List (Str × Str)) : List Str :=
  pad_row_to_10 ((name :: format_date_for_display date :: []) ++
    (chunk.map (fun p => [p.1, p.2])).flatten)

/-- The row construction performed inline by the CSV `export` route
(src/app.py:776-844). The chunk-and-write loop (lines 831-844) sits at the
indentation level of the bucket loop's header, not inside its body, so it
runs once after that loop with the loop variables' final values: only the
last bucket's pairs are chunked and written. When no bucket exists at all,
`pairs` was never assigned and line 831 raises `NameError`, modelled by
`none`. -/
def export_rows (logs : List Log) : Option (List (List Str)) :=
  (groupBuckets logs).bind (fun buckets =>
    (buckets.getLast?).map (fun b =>
      (chunksOf4 (buildPairsAux none b.2)).map (fun chunk =>
        flat_row b.1.1 b.1.2 chunk)))

/-- Which validation rule rejected a candidate event: rule 1 renders the
"cannot sign OUT ... not signed IN" message, rule 2 the "already signed IN"
message (src/app.py:683-706, 620-624). -/
inductive RejectReason where
  | cannotSignOut
  | alreadySignedIn
deriving DecidableEq, Repr

/-- The validation-and-append core of the `sign` route
(src/app.py:669-717), reached only when the timestamp formatting and the
unconditional same-day grouping preview (see `sign`) have both survived:
build the timestamp, filter this person's logs of the candidate's day,
resolve the state at the candidate's own timestamp, apply rule 1 then
rule 2, and on acceptance append the event with `id = len(logs)`. The
result pairs the stored list with the rejection. -/
def sign_core (logs : List Log) (name action date_str t : Str) :
    List Log × Option RejectReason :=
  let timestamp := date_str ++ (' ' :: t)
  let todays_logs := logs.filter (fun l => l.name == name && pyStartsWith date_str l.timestamp)
  let state_at_timestamp := get_state_at_timestamp todays_logs timestamp
  if action = strOUT ∧ state_at_timestamp ≠ strIN then
    (logs, some RejectReason.cannotSignOut)
  else if action = strIN ∧ state_at_timestamp = strIN then
    (logs, some RejectReason.alreadySignedIn)
  else
    (logs ++ [⟨logs.length, name, action, timestamp⟩], none)

/-- The `sign` route (src/app.py:637-717) from the point where the clock or
the parsed manual time has produced `time_str`. Before applying either
validation rule, the route unconditionally computes
`group_logs_csv_style([log for log in load_logs() if
log["timestamp"].startswith(date_str)])` (src/app.py:679-680) for the
rejection renders, so `none` models either uncaught raise: the time
formatter's `IndexError`, or the grouping's `IndexError` when some stored
same-day timestamp (any person's) contains no space. -/
def sign (logs : List Log) (name action date_str time_str : Str) :
    Option (List Log × Option RejectReason) :=
  (format_time_without_leading_zero time_str).bind (fun t =>
    (group_logs_csv_style
        (logs.filter (fun l => pyStartsWith date_str l.timestamp))).map
      (fun _ => sign_core logs name action date_str t))

/-- The action derivation and validation of the `rfid_scan` route
(src/app.py:610-624), as a function of the resolved prior state string. -/
def rfid_decide (state_at_timestamp : Str) : Str × Option RejectReason :=
  let action := if state_at_timestamp = strIN then strOUT else strIN
  if action = strOUT ∧ state_at_timestamp ≠ strIN then
    (action, some RejectReason.cannotSignOut)
  else if action = strIN ∧ state_at_timestamp = strIN then
    (action, some RejectReason.alreadySignedIn)
  else (action, none)

/-- The `rfid_scan` route (src/app.py:581-635) from the point where the card
lookup has resolved `name` and the clock has produced `time_str`: resolve
the state at the current timestamp, derive the action from it, validate,
and on acceptance append with `id = len(logs)`. -/
def rfid_scan_core (logs : List Log) (name date_str t : Str) :
    List Log × Option RejectReason :=
  let timestamp := date_str ++ (' ' :: t)
  let todays_logs := logs.filter (fun l => l.name == name && pyStartsWith date_str l.timestamp)
  let state_at_timestamp := get_state_at_timestamp todays_logs timestamp
  match rfid_decide state_at_timestamp with
  | (_, some r) => (logs, some r)
  | (action, none) => (logs ++ [⟨logs.length, name, action, timestamp⟩], none)

/-- The `rfid_scan` route as a function of its inputs, with the time
formatting applied first. -/
def rfid_scan (logs : List Log) (name date_str time_str : Str) :
    Option (List Log × Option RejectReason) :=
  (format_time_without_leading_zero time_str).map (rfid_scan_core logs name date_str)

/-- The renumbering loop of `remove` (src/app.py:1017-1018): each remaining
log's `id` becomes its position, counting from `i`. -/
def renumber (i : Nat) : List Log → List Log
  | [] => []
  | l :: ls => { l with id := i } :: renumber (i + 1) ls

/-- The `remove` route (src/app.py:1012-1020): drop every log whose id
equals `log_id`, then renumber all remaining logs to their positions. -/
def remove (logs : List Log) (log_id : Nat) : List Log :=
  renumber 0 (logs.filter (fun l => l.id ≠ log_id))

/-- The `edit` route (src/app.py:1042-1053): overwrite the timestamp of the
first log whose id equals `log_id` (the loop breaks there) with the
submitted string, unvalidated; all other logs are untouched. -/
def edit (logs : List Log) (log_id : Nat) (new_ts : Str) : List Log :=
  match logs with
  | [] => []
  | l :: ls =>
    if l.id = log_id then { l with timestamp := new_ts } :: ls
    else l :: edit ls log_id new_ts

/-- Position invariant of the stored list: every log's `id` equals its
index. -/
def idsArePositions (logs : List Log) : Prop :=
  logs.map (fun l => l.id) = List.range logs.length

/-- Modelled from the spec: the pairing scan exactly as claim C2 and §4.4
word it, with `pendingIn` an `Option` slot tested for occupancy (not for
Python truthiness). Events whose action is neither `IN` nor `OUT` are not
described by the spec's case list and pass through unchanged, as in the
code. -/
def specPairsAux : Option Str → List (Str × Str) → List (Str × Str)
  | pendingIn, [] =>
    (match pendingIn with
     | some p => [(p, [])]
     | none => [])
  | pendingIn, (action, t) :: rest =>
    if action = strIN then
      (match pendingIn with
       | some p => (p, []) :: specPairsAux (some t) rest
       | none => specPairsAux (some t) rest)
    else if action = strOUT then
      (match pendingIn with
       | some p => (p, t) :: specPairsAux none rest
       | none => ([], t) :: specPairsAux none rest)
    else specPairsAux pendingIn rest

/-- Modelled from the spec: the `"YYYY-MM-DD H:MM AP"` shape claim C5 deems
well-formed — exactly three space-separated fields, a valid calendar date,
an hour in 1..12 without a mandatory leading zero, a two-digit minute below
60, and a meridiem of exactly `AM` or `PM` up to case. -/
def claimedWellFormed (s : Str) : Bool :=
  match pySplitChar ' ' s with
  | [d, t, ap] =>
    (pyStrptimeYMD d).isSome &&
    (match pySplitChar ':' t with
     | [h, m] =>
       h.all Char.isDigit && (h.length = 1 || h.length = 2) &&
       1 ≤ digitsVal h && digitsVal h ≤ 12 &&
       m.all Char.isDigit && m.length = 2 && digitsVal m ≤ 59
     | _ => false) &&
    (pyUpper ap = str "AM" || pyUpper ap = str "PM")
  | _ => false

/-- Strict version of the sort key comparison: `f` sorts strictly before
`e`. -/
def logKeyLt (a b : Log) : Prop :=
  parse_timestamp_for_sorting a.timestamp < parse_timestamp_for_sorting b.timestamp ∨
    (parse_timestamp_for_sorting a.timestamp = parse_timestamp_for_sorting b.timestamp ∧
      a.id < b.id)

instance : DecidableRel logKeyLt := fun a b => by
  unfold logKeyLt; exact inferInstance

/-- A timestamp the grouping loop survives: it contains a space, and the
text after the first space survives the time formatter. -/
def goodTimestamp (ts : Str) : Bool :=
  match after_first_space ts with
  | none => false
  | some rest => (format_time_without_leading_zero rest).isSome

/-! ## Theorems -/

/-- C1 (code bug witness): at a two-bucket input — Alice then Bob, same
date — `group_logs_csv_style` produces one row per bucket, but the CSV
export route's inline row construction (its chunk loop is dedented out of
the bucket loop, src/app.py:831) produces only the last bucket's row, so
the two are not equivalent. -/
theorem export_route_writes_only_last_bucket :
    export_rows
        [⟨0, str "Alice", strIN, str "2025-01-01 9:00 AM"⟩,
         ⟨1, str "Bob", strIN, str "2025-01-01 10:00 AM"⟩] =
      some [[str "Bob", str "Jan. 1", str "10:00 AM",
             [], [], [], [], [], [], []]] ∧
    group_logs_csv_style
        [⟨0, str "Alice", strIN, str "2025-01-01 9:00 AM"⟩,
         ⟨1, str "Bob", strIN, str "2025-01-01 10:00 AM"⟩] =
      some [(str "Alice", str "Jan. 1", [(str "9:00 AM", [])]),
            (str "Bob", str "Jan. 1", [(str "10:00 AM", [])])] :=
  ⟨rfl, rfl⟩

/-- C6 (counterexample): the grouping operation is not total — an event
whose timestamp contains no space at all makes `timestamp.split(" ", 1)[1]`
raise `IndexError` (src/app.py:365), modelled by `none`. -/
theorem group_raises_without_space_example :
    group_logs_csv_style [⟨0, str "A", strIN, str "nospace"⟩] = none := rfl

/-- Helper: the derived-action validation of the RFID route derives the
opposite action and never rejects, whatever the resolved prior state string
is. -/
theorem rfid_decide_eq (s : Str) :
    rfid_decide s = (if s = strIN then strOUT else strIN, none) := by
  by_cases h : s = strIN
  · subst h; rfl
  · unfold rfid_decide
    simp only [if_neg h]
    rw [if_neg fun hc => absurd hc.1 (by decide), if_neg fun hc => h hc.2]

/-- Helper: the derived-action validation of the RFID route never rejects,
whatever the resolved prior state string is. -/
theorem rfid_decide_snd_eq_none (s : Str) : (rfid_decide s).2 = none := by
  rw [rfid_decide_eq]

/-- C7 (counterexample): in the auto-derived action path the rule-1
rejection is not reachable for any input — the rejection component of the
derived-action validation is the constant `none`, so rule 1 is exactly as
unreachable as rule 2. -/
theorem rfid_rules_unreachable :
    (fun s => (rfid_decide s).2) = fun _ => (none : Option RejectReason) :=
  funext fun s => rfid_decide_snd_eq_none s

/-- Helper: the RFID route's core, with the derived-action validation
resolved — it always appends the derived event and rejects nothing. -/
theorem rfid_scan_core_eq (logs : List Log) (name date_str t : Str) :
    rfid_scan_core logs name date_str t =
      (logs ++ [⟨logs.length, name,
        if get_state_at_timestamp
            (logs.filter (fun l => l.name == name && pyStartsWith date_str l.timestamp))
            (date_str ++ (' ' :: t)) = strIN
        then strOUT else strIN,
        date_str ++ (' ' :: t)⟩], none) := by
  simp only [rfid_scan_core, rfid_decide_eq]

/-- C7 (amended): whenever the RFID route completes, it rejects nothing —
both validation rules are unreachable by construction — and it appends
exactly one derived event to the stored list. -/
theorem rfid_scan_never_rejects :
    ∀ (logs : List Log) (name date_str time_str : Str)
      (res : List Log × Option RejectReason),
      rfid_scan logs name date_str time_str = some res →
      res.2 = none ∧ ∃ e, res.1 = logs ++ [e] := by
  intro logs name date_str time_str res h
  unfold rfid_scan at h
  cases hf : format_time_without_leading_zero time_str with
  | none => rw [hf] at h; cases h
  | some t =>
    rw [hf] at h
    obtain rfl := Option.some.inj h
    rw [rfid_scan_core_eq]
    exact ⟨rfl, _, rfl⟩

/-- C7 (witness): a concrete run of the RFID route — a card holder already
signed IN gets signed OUT with no rejection. -/
theorem rfid_scan_never_rejects_example :
    ((([⟨0, str "A", strIN, str "2025-01-01 8:00 AM"⟩,
        ⟨1, str "A", strOUT, str "2025-01-01 9:00 AM"⟩],
       none) : List Log × Option RejectReason).2 = none ∧
     ∃ e, (([⟨0, str "A", strIN, str "2025-01-01 8:00 AM"⟩,
             ⟨1, str "A", strOUT, str "2025-01-01 9:00 AM"⟩],
            none) : List Log × Option RejectReason).1 =
       [⟨0, str "A", strIN, str "2025-01-01 8:00 AM"⟩] ++ [e]) :=
  rfid_scan_never_rejects
    [⟨0, str "A", strIN, str "2025-01-01 8:00 AM"⟩]
    (str "A") (str "2025-01-01") (str "09:00 AM")
    ([⟨0, str "A", strIN, str "2025-01-01 8:00 AM"⟩,
      ⟨1, str "A", strOUT, str "2025-01-01 9:00 AM"⟩], none)
    rfl

/-- C10: the edit operation rewrites exactly the timestamp of the first
log whose id matches (the loop breaks there), leaves every preceding and
following log untouched together with the matched log's id, name and
action, and accepts any submitted string without validation; when no id
matches it changes nothing. -/
theorem edit_updates_first_match_only :
    ∀ (logs : List Log) (log_id : Nat) (new_ts : Str),
      ((∀ l ∈ logs, l.id ≠ log_id) → edit logs log_id new_ts = logs) ∧
      (∀ pre x post, logs = pre ++ x :: post →
        (∀ l ∈ pre, l.id ≠ log_id) → x.id = log_id →
        edit logs log_id new_ts =
          pre ++ { x with timestamp := new_ts } :: post) := by
  intro logs log_id new_ts
  constructor
  · intro hnone
    induction logs with
    | nil => rfl
    | cons l ls ih =>
      simp only [edit]
      rw [if_neg (hnone l (List.mem_cons_self l ls))]
      rw [ih (fun m hm => hnone m (List.mem_cons_of_mem l hm))]
  · intro pre x post hsplit hpre hx
    subst hsplit
    induction pre with
    | nil =>
      simp only [List.nil_append, edit]
      rw [if_pos hx]
    | cons p pre' ih =>
      simp only [List.cons_append, edit]
      rw [if_neg (hpre p (List.mem_cons_self p pre'))]
      simp only [List.append_eq]
      rw [ih (fun m hm => hpre m (List.mem_cons_of_mem p hm))]

/-- C10 (witness): with two logs sharing id 1, only the first match gets
the (unvalidated, even date-free) new timestamp. -/
theorem edit_updates_first_match_example :
    edit [⟨0, str "A", strIN, str "t1"⟩, ⟨1, str "B", strIN, str "t2"⟩,
          ⟨1, str "C", strIN, str "t3"⟩] 1 (str "whatever") =
      [⟨0, str "A", strIN, str "t1"⟩] ++
        ⟨1, str "B", strIN, str "whatever"⟩ :: [⟨1, str "C", strIN, str "t3"⟩] :=
  (edit_updates_first_match_only _ 1 (str "whatever")).2
    [⟨0, str "A", strIN, str "t1"⟩] ⟨1, str "B", strIN, str "t2"⟩
    [⟨1, str "C", strIN, str "t3"⟩] rfl
    (by intro l hl; rw [List.mem_singleton] at hl; subst hl; decide) rfl

/-- Helper: the ids produced by the renumbering loop are the consecutive
positions starting at `i`. -/
theorem renumber_map_id (xs : List Log) :
    ∀ i : Nat, (renumber i xs).map (fun l => l.id) = List.range' i xs.length := by
  induction xs with
  | nil => intro i; rfl
  | cons l ls ih =>
    intro i
    simp only [renumber, List.map_cons, List.length_cons, List.range'_succ]
    rw [ih (i + 1)]

/-- Helper: renumbering keeps the list length. -/
theorem renumber_length (xs : List Log) :
    ∀ i : Nat, (renumber i xs).length = xs.length := by
  induction xs with
  | nil => intro i; rfl
  | cons l ls ih =>
    intro i
    simp only [renumber, List.length_cons]
    rw [ih (i + 1)]

/-- Helper: appending a log whose id is the current length preserves the
position invariant. -/
theorem idsArePositions_append (logs : List Log) (name action ts : Str) :
    idsArePositions logs →
    idsArePositions (logs ++ [⟨logs.length, name, action, ts⟩]) := by
  intro h
  unfold idsArePositions at *
  rw [List.map_append, h]
  simp [List.range_succ]

/-- Helper: the sign route's core either leaves the list unchanged (a
rejection) or appends one event carrying id `len(logs)`. -/
theorem sign_core_fst (logs : List Log) (name action date_str t : Str) :
    (sign_core logs name action date_str t).1 = logs ∨
    (sign_core logs name action date_str t).1 =
      logs ++ [⟨logs.length, name, action, date_str ++ (' ' :: t)⟩] := by
  simp only [sign_core]
  split
  · exact Or.inl rfl
  · split
    · exact Or.inl rfl
    · exact Or.inr rfl

/-- C9: every mutating operation maintains the id-equals-position
invariant: `remove` renumbers so the invariant holds unconditionally
afterwards, and both sign paths append with `id = len(logs)`, preserving
the invariant whenever it held before. -/
theorem ids_equal_positions_invariant :
    (∀ (logs : List Log) (log_id : Nat), idsArePositions (remove logs log_id)) ∧
    (∀ (logs : List Log) (name action date_str time_str : Str)
       (res : List Log × Option RejectReason),
       sign logs name action date_str time_str = some res →
       idsArePositions logs → idsArePositions res.1) ∧
    (∀ (logs : List Log) (name date_str time_str : Str)
       (res : List Log × Option RejectReason),
       rfid_scan logs name date_str time_str = some res →
       idsArePositions logs → idsArePositions res.1) := by
  refine ⟨?_, ?_, ?_⟩
  · intro logs log_id
    unfold remove idsArePositions
    rw [renumber_map_id, renumber_length, List.range_eq_range']
  · intro logs name action date_str time_str res h hpos
    unfold sign at h
    cases hf : format_time_without_leading_zero time_str with
    | none => rw [hf] at h; cases h
    | some t =>
      rw [hf, Option.some_bind] at h
      cases hg : group_logs_csv_style
          (logs.filter (fun l => pyStartsWith date_str l.timestamp)) with
      | none => rw [hg] at h; cases h
      | some rows =>
        rw [hg] at h
        obtain rfl := Option.some.inj h
        rcases sign_core_fst logs name action date_str t with hc | hc <;> rw [hc]
        · exact hpos
        · exact idsArePositions_append logs name action _ hpos
  · intro logs name date_str time_str res h hpos
    unfold rfid_scan at h
    cases hf : format_time_without_leading_zero time_str with
    | none => rw [hf] at h; cases h
    | some t =>
      rw [hf] at h
      obtain rfl := Option.some.inj h
      rw [rfid_scan_core_eq]
      exact idsArePositions_append logs name _ _ hpos

/-- C9 (witness): a concrete removal out of a three-log list with a gap
leaves ids 0, 1 in positions 0, 1. -/
theorem ids_equal_positions_example :
    idsArePositions (remove
      [⟨0, str "A", strIN, str "t1"⟩, ⟨1, str "B", strIN, str "t2"⟩,
       ⟨2, str "C", strIN, str "t3"⟩] 1) :=
  ids_equal_positions_invariant.1
    [⟨0, str "A", strIN, str "t1"⟩, ⟨1, str "B", strIN, str "t2"⟩,
     ⟨2, str "C", strIN, str "t3"⟩] 1

/-- C4 (counterexample): before either validation rule, the sign route
unconditionally groups all of the day's stored logs for its rejection
renders (src/app.py:679-680); a stored same-day timestamp with no space —
storable through the unvalidated edit route — makes that call raise
`IndexError`. Here person A submits a manual IN while their own state is
OUT, so both rules would have passed and the event been appended, yet the
request is neither rejected with a reason nor appended: the route aborts. -/
theorem sign_aborts_on_spaceless_same_day_log :
    sign [⟨0, str "B", strIN, str "2026-10-12"⟩] (str "A") strIN
      (str "2026-10-12") (str "09:00 AM") = none := rfl

/-- C4 (amended): on every manual sign request that completes — that is,
whose timestamp formatting and whose unconditional same-day grouping
preview (src/app.py:679-680) both survive — with `S` the state resolved
from that person's same-day events at the candidate's own timestamp, the
request is rejected with the cannot-sign-OUT reason iff the action is
`OUT` and `S` is not `IN`, rejected with the already-signed-IN reason iff
the action is `IN` and `S` is `IN`; on acceptance the candidate (with id
`len(logs)`) is appended, and on any rejection the stored list is
unchanged. -/
theorem sign_rejects_iff_rules :
    ∀ (logs : List Log) (name action date_str time_str t : Str)
      (res : List Log × Option RejectReason),
      format_time_without_leading_zero time_str = some t →
      sign logs name action date_str time_str = some res →
      ((res.2 = some RejectReason.cannotSignOut ↔
        action = strOUT ∧
          get_state_at_timestamp
            (logs.filter (fun l => l.name == name && pyStartsWith date_str l.timestamp))
            (date_str ++ (' ' :: t)) ≠ strIN) ∧
       (res.2 = some RejectReason.alreadySignedIn ↔
        action = strIN ∧
          get_state_at_timestamp
            (logs.filter (fun l => l.name == name && pyStartsWith date_str l.timestamp))
            (date_str ++ (' ' :: t)) = strIN) ∧
       (res.2 = none →
        res.1 = logs ++ [⟨logs.length, name, action, date_str ++ (' ' :: t)⟩]) ∧
       (res.2 ≠ none → res.1 = logs)) := by
  intro logs name action date_str time_str t res hf h
  have hres : res = sign_core logs name action date_str t := by
    unfold sign at h
    rw [hf, Option.some_bind] at h
    cases hg : group_logs_csv_style
        (logs.filter (fun l => pyStartsWith date_str l.timestamp)) with
    | none => rw [hg] at h; cases h
    | some rows => rw [hg] at h; exact (Option.some.inj h).symm
  subst hres
  simp only [sign_core]
  by_cases h1 : action = strOUT ∧
      get_state_at_timestamp
        (logs.filter (fun l => l.name == name && pyStartsWith date_str l.timestamp))
        (date_str ++ (' ' :: t)) ≠ strIN
  · rw [if_pos h1]
    refine ⟨⟨fun _ => h1, fun _ => rfl⟩,
            ⟨fun hc => absurd (Option.some.inj hc) (by decide),
             fun hc => absurd hc.2 h1.2⟩,
            fun hn => Option.noConfusion hn, fun _ => rfl⟩
  · rw [if_neg h1]
    by_cases h2 : action = strIN ∧
        get_state_at_timestamp
          (logs.filter (fun l => l.name == name && pyStartsWith date_str l.timestamp))
          (date_str ++ (' ' :: t)) = strIN
    · rw [if_pos h2]
      refine ⟨⟨fun hc => absurd (Option.some.inj hc) (by decide),
               fun hc => absurd hc h1⟩,
              ⟨fun _ => h2, fun _ => rfl⟩,
              fun hn => Option.noConfusion hn, fun _ => rfl⟩
    · rw [if_neg h2]
      exact ⟨⟨fun hc => Option.noConfusion hc, fun hr => absurd hr h1⟩,
             ⟨fun hc => Option.noConfusion hc, fun hr => absurd hr h2⟩,
             fun _ => rfl, fun hn => absurd rfl hn⟩

/-- C4 (witness): a concrete accepted manual IN — the candidate is appended
with id 0 and the route's third clause fires at a real run of `sign`. -/
theorem sign_rules_example :
    (([⟨0, str "A", strIN, str "2025-01-01 9:00 AM"⟩], none) :
        List Log × Option RejectReason).1 =
      [] ++ [⟨0, str "A", strIN, str "2025-01-01 9:00 AM"⟩] :=
  (sign_rejects_iff_rules [] (str "A") strIN (str "2025-01-01") (str "09:00 AM")
      (str "9:00 AM")
      (([⟨0, str "A", strIN, str "2025-01-01 9:00 AM"⟩], none) :
        List Log × Option RejectReason)
      rfl rfl).2.2.1 rfl

/-- Helper: every chunk the chunking loop produces has at most four
entries. -/
theorem chunksOf4_mem_length {α : Type} : ∀ (l : List α), ∀ c ∈ chunksOf4 l, c.length ≤ 4
  | [] => by simp [chunksOf4]
  | [_] => by simp [chunksOf4]
  | [_, _] => by simp [chunksOf4]
  | [_, _, _] => by simp [chunksOf4]
  | a :: b :: c :: d :: rest => by
    intro ch hch
    simp only [chunksOf4, List.mem_cons] at hch
    rcases hch with rfl | hch
    · simp
    · exact chunksOf4_mem_length rest ch hch

/-- Helper: the padding loop reaches exactly ten fields from any
even-length row of at most ten fields, given enough iterations. -/
theorem padLoop_length : ∀ (n : Nat) (row : List Str),
    row.length % 2 = 0 → row.length ≤ 10 → 10 ≤ row.length + 2 * n →
    (padLoop n row).length = 10 := by
  intro n
  induction n with
  | zero =>
    intro row _ hle hge
    simp only [padLoop]
    omega
  | succ n ih =>
    intro row hpar hle hge
    simp only [padLoop]
    by_cases hlt : row.length < 10
    · rw [if_pos hlt]
      have := ih (row ++ [[], []])
      simp only [List.length_append] at this ⊢
      apply this <;> simp <;> omega
    · rw [if_neg hlt]
      omega

/-- Helper: flattening a chunk of pairs doubles its length. -/
theorem flatten_pairs_length : ∀ (chunk : List (Str × Str)),
    ((chunk.map (fun p => [p.1, p.2])).flatten).length = 2 * chunk.length := by
  intro chunk
  induction chunk with
  | nil => rfl
  | cons p ps ih =>
    simp only [List.map_cons, List.flatten_cons, List.length_append, List.length_cons, ih]
    simp; omega

/-- Helper: a flat export row built from a chunk of at most four pairs has
exactly ten fields. -/
theorem flat_row_length (name date : Str) (chunk : List (Str × Str))
    (hc : chunk.length ≤ 4) : (flat_row name date chunk).length = 10 := by
  have hlen : ((name :: format_date_for_display date :: []) ++
      (chunk.map (fun p => [p.1, p.2])).flatten).length = 2 + 2 * chunk.length := by
    rw [List.length_append, flatten_pairs_length]
    rfl
  unfold flat_row pad_row_to_10
  apply padLoop_length <;> rw [hlen] <;> omega

/-- C8: every flat row the CSV export route produces has exactly 10 fields
— name, display date and four in/out interval slots, the missing slots
padded with empty strings by the padding loop. -/
theorem export_rows_have_ten_fields :
    ∀ (logs : List Log) (rows : List (List Str)),
      export_rows logs = some rows → ∀ row ∈ rows, row.length = 10 := by
  intro logs rows h row hrow
  unfold export_rows at h
  cases hb : groupBuckets logs with
  | none => rw [hb] at h; cases h
  | some buckets =>
    rw [hb, Option.some_bind] at h
    cases hl : buckets.getLast? with
    | none => rw [hl] at h; cases h
    | some b =>
      rw [hl] at h
      obtain rfl := Option.some.inj h
      rw [List.mem_map] at hrow
      obtain ⟨chunk, hchunk, rfl⟩ := hrow
      exact flat_row_length _ _ _ (chunksOf4_mem_length _ chunk hchunk)

/-- C8 (witness): the single row a one-event list exports has exactly ten
fields. -/
theorem export_rows_ten_fields_example :
    ([str "A", str "Jan. 1", str "9:00 AM",
      [], [], [], [], [], [], []] : List Str).length = 10 :=
  export_rows_have_ten_fields [⟨0, str "A", strIN, str "2025-01-01 9:00 AM"⟩]
    [[str "A", str "Jan. 1", str "9:00 AM", [], [], [], [], [], [], []]]
    rfl
    [str "A", str "Jan. 1", str "9:00 AM", [], [], [], [], [], [], []]
    (List.mem_singleton.mpr rfl)

/-- Helper: the time formatter never produces the empty string — its result
always contains the `":"` it inserts between hour and minute. -/
theorem fmtCore_ne_nil (tp ap : Str) : fmtCore tp ap ≠ [] := by
  intro h
  unfold fmtCore at h
  simp at h

/-- Helper: a successful run of `format_time_without_leading_zero` never
returns the empty string. -/
theorem fmt_ne_nil (s t : Str) :
    format_time_without_leading_zero s = some t → t ≠ [] := by
  intro h
  unfold format_time_without_leading_zero at h
  by_cases hc : s.contains ' '
  · rw [if_pos hc] at h
    cases hw : pySplitWs s with
    | nil => rw [hw] at h; cases h
    | cons tp rest =>
      rw [hw] at h
      obtain rfl := (Option.some.inj h).symm
      exact fmtCore_ne_nil _ _
  · rw [if_neg hc] at h
    obtain rfl := (Option.some.inj h).symm
    exact fmtCore_ne_nil _ _

/-- Helper: inserting a value satisfying `P` preserves `P` across all
bucket entries. -/
theorem insertBucket_preserves (P : Str × Str → Prop) (k : Str × Str) (v : Str × Str) :
    ∀ (acc : List Bucket), (∀ b ∈ acc, ∀ p ∈ b.2, P p) → P v →
    ∀ b ∈ insertBucket k v acc, ∀ p ∈ b.2, P p := by
  intro acc
  induction acc with
  | nil =>
    intro _ hv b hb p hp
    simp only [insertBucket, List.mem_singleton] at hb
    subst hb
    rw [List.mem_singleton] at hp
    subst hp
    exact hv
  | cons a rest ih =>
    intro hacc hv b hb p hp
    rcases a with ⟨k', vs⟩
    simp only [insertBucket] at hb
    by_cases hk : k' = k
    · rw [if_pos hk] at hb
      rcases List.mem_cons.mp hb with rfl | hb'
      · rcases List.mem_append.mp hp with hp' | hp'
        · exact hacc (k', vs) (List.mem_cons_self _ _) p hp'
        · rw [List.mem_singleton] at hp'; subst hp'; exact hv
      · exact hacc b (List.mem_cons_of_mem _ hb') p hp
    · rw [if_neg hk] at hb
      rcases List.mem_cons.mp hb with rfl | hb'
      · exact hacc (k', vs) (List.mem_cons_self _ _) p hp
      · exact ih (fun b' hb' => hacc b' (List.mem_cons_of_mem _ hb')) hv b hb' p hp

/-- Helper: every time stored in any bucket the grouping loop builds is a
formatter output, hence non-empty. -/
theorem groupBucketsAux_times_ne_nil :
    ∀ (ls : List Log) (acc bs : List Bucket),
      groupBucketsAux ls acc = some bs →
      (∀ b ∈ acc, ∀ p ∈ b.2, p.2 ≠ ([] : Str)) →
      ∀ b ∈ bs, ∀ p ∈ b.2, p.2 ≠ ([] : Str) := by
  intro ls
  induction ls with
  | nil =>
    intro acc bs h hacc
    obtain rfl := Option.some.inj h
    exact hacc
  | cons l ls ih =>
    intro acc bs h hacc
    unfold groupBucketsAux at h
    cases ha : after_first_space l.timestamp with
    | none => rw [ha] at h; cases h
    | some raw =>
      rw [ha, Option.some_bind] at h
      cases hf : format_time_without_leading_zero raw with
      | none => rw [hf] at h; cases h
      | some t =>
        rw [hf, Option.some_bind] at h
        exact ih _ _ h
          (insertBucket_preserves (fun p => p.2 ≠ []) _ _ acc hacc (fmt_ne_nil raw t hf))

/-- Helper: on events whose times are all non-empty, the code's
truthiness-tested scan agrees with the spec's occupancy-tested scan,
whatever the pending slot holds (itself non-empty when occupied). -/
theorem buildPairs_eq_spec :
    ∀ (evs : List (Str × Str)) (pending : Option Str),
      (∀ p ∈ evs, p.2 ≠ ([] : Str)) →
      (∀ q, pending = some q → q ≠ ([] : Str)) →
      buildPairsAux pending evs = specPairsAux pending evs := by
  intro evs
  induction evs with
  | nil => intro pending _ _; rfl
  | cons e rest ih =>
    intro pending hall hpend
    rcases e with ⟨a, t⟩
    have ht : t ≠ [] := hall (a, t) (List.mem_cons_self _ _)
    have hrest : ∀ p ∈ rest, p.2 ≠ ([] : Str) :=
      fun p hp => hall p (List.mem_cons_of_mem _ hp)
    cases pending with
    | none =>
      simp only [buildPairsAux, specPairsAux]
      by_cases hin : a = strIN
      · rw [if_pos hin, if_pos hin]
        exact ih (some t) hrest (fun q hq => by cases hq; exact ht)
      · by_cases hout : a = strOUT
        · rw [if_neg hin, if_neg hin, if_pos hout, if_pos hout]
          rw [ih none hrest (fun q hq => Option.noConfusion hq)]
        · rw [if_neg hin, if_neg hin, if_neg hout, if_neg hout]
          exact ih none hrest (fun q hq => Option.noConfusion hq)
    | some p =>
      have hp : p ≠ [] := hpend p rfl
      simp only [buildPairsAux, specPairsAux]
      by_cases hin : a = strIN
      · rw [if_pos hin, if_pos hin]
        rw [ih (some t) hrest (fun q hq => by cases hq; exact ht)]
      · by_cases hout : a = strOUT
        · rw [if_neg hin, if_neg hin, if_pos hout, if_pos hout, if_pos hp]
          rw [ih none hrest (fun q hq => Option.noConfusion hq)]
        · rw [if_neg hin, if_neg hin, if_neg hout, if_neg hout]
          exact ih (some p) hrest hpend

/-- C2: for every bucket the grouper builds, the code's pairing scan
(src/app.py:374-395) computes exactly the spec-worded pendingIn scan: an IN
on an occupied slot emits a dangling-IN pair and refills the slot, an IN on
an empty slot fills it, an OUT on an occupied slot emits the completed pair
and clears it, an OUT on an empty slot emits a dangling-OUT pair, and an
occupied slot at the end emits a final dangling-IN pair. -/
theorem grouper_scan_matches_spec_pendingIn :
    ∀ (logs : List Log) (buckets : List Bucket),
      groupBuckets logs = some buckets →
      ∀ b ∈ buckets, buildPairsAux none b.2 = specPairsAux none b.2 := by
  intro logs buckets h b hb
  have h' : groupBucketsAux (sortLogs logs) [] = some buckets := h
  have htimes := groupBucketsAux_times_ne_nil (sortLogs logs) [] buckets h'
    (fun b hb' => absurd hb' (List.not_mem_nil b))
  exact buildPairs_eq_spec b.2 none (htimes b hb) (fun q hq => Option.noConfusion hq)

/-- C2 (witness): the two-consecutive-IN bucket of a concrete grouped log
list scans identically under the code and the spec wording. -/
theorem grouper_scan_spec_example :
    buildPairsAux none [(strIN, str "9:00 AM"), (strIN, str "10:00 AM")] =
      specPairsAux none [(strIN, str "9:00 AM"), (strIN, str "10:00 AM")] :=
  grouper_scan_matches_spec_pendingIn
    [⟨0, str "A", strIN, str "2025-01-01 9:00 AM"⟩,
     ⟨1, str "A", strIN, str "2025-01-01 10:00 AM"⟩]
    [((str "A", str "2025-01-01"),
      [(strIN, str "9:00 AM"), (strIN, str "10:00 AM")])]
    rfl
    ((str "A", str "2025-01-01"),
      [(strIN, str "9:00 AM"), (strIN, str "10:00 AM")])
    (List.mem_singleton.mpr rfl)

/-- C6 (amended): the grouping operation returns a row list for every
event list whose timestamps each contain a space and survive the time
formatter (in particular, arbitrarily malformed dates and times are fine);
only a timestamp with no space at all — or a whitespace-only remainder —
raises. -/
theorem group_total_on_good_timestamps :
    ∀ logs : List Log, (∀ l ∈ logs, goodTimestamp l.timestamp = true) →
      ∃ rows, group_logs_csv_style logs = some rows := by
  have aux : ∀ (ls : List Log) (acc : List Bucket),
      (∀ l ∈ ls, goodTimestamp l.timestamp = true) →
      ∃ bs, groupBucketsAux ls acc = some bs := by
    intro ls
    induction ls with
    | nil => intro acc _; exact ⟨acc, rfl⟩
    | cons l ls ih =>
      intro acc h
      have hl := h l (List.mem_cons_self _ _)
      unfold goodTimestamp at hl
      cases ha : after_first_space l.timestamp with
      | none => rw [ha] at hl; cases hl
      | some raw =>
        rw [ha] at hl
        obtain ⟨t, ht⟩ := Option.isSome_iff_exists.mp hl
        have := ih (insertBucket (l.name, extract_date l.timestamp) (l.action, t) acc)
          (fun m hm => h m (List.mem_cons_of_mem _ hm))
        unfold groupBucketsAux
        rw [ha, Option.some_bind, ht, Option.some_bind]
        exact this
  intro logs h
  unfold group_logs_csv_style groupBuckets
  obtain ⟨bs, hbs⟩ := aux (sortLogs logs) []
    (fun l hl => h l ((List.mem_insertionSort logKeyLe).mp hl))
  rw [hbs]
  exact ⟨_, rfl⟩

/-- C6 (amended, witness): a log whose timestamp is garbage but contains a
space still groups without raising. -/
theorem group_total_example :
    ∃ rows, group_logs_csv_style [⟨0, str "A", strIN, str "garbage stuff"⟩] = some rows :=
  group_total_on_good_timestamps [⟨0, str "A", strIN, str "garbage stuff"⟩]
    (by
      intro l hl
      rw [List.mem_singleton] at hl
      subst hl
      rfl)

/-- Helper: a successfully parsed date has year, month and day all at least
one. -/
theorem pyStrptimeYMD_pos (s : Str) (y mo d : Nat) :
    pyStrptimeYMD s = some (y, mo, d) → 1 ≤ y ∧ 1 ≤ mo ∧ 1 ≤ d := by
  unfold pyStrptimeYMD
  cases hsp : pySplitChar '-' s with
  | nil => intro h; cases h
  | cons ys l1 =>
    cases l1 with
    | nil => intro h; cases h
    | cons ms l2 =>
      cases l2 with
      | nil => intro h; cases h
      | cons ds l3 =>
        cases l3 with
        | cons e l4 => intro h; cases h
        | nil =>
          intro h
          dsimp only at h
          split_ifs at h with h1 h2
          simp only [Option.some.injEq, Prod.mk.injEq] at h
          obtain ⟨rfl, rfl, rfl⟩ := h
          simp only [Bool.and_eq_true, Bool.or_eq_true, decide_eq_true_eq] at h2
          omega

/-- Helper: whatever the parse core returns is at least the minimum
instant. -/
theorem parse_core_ge (s : Str) (v : Nat) :
    parse_timestamp_core s = some v → datetimeMin ≤ v := by
  unfold parse_timestamp_core
  cases hs : pySplit2 ' ' s with
  | nil => intro h; cases h
  | cons a l1 =>
    cases l1 with
    | nil => intro h; cases h
    | cons b l2 =>
      cases l2 with
      | nil => intro h; cases h
      | cons c l3 =>
        cases l3 with
        | cons e l4 => intro h; cases h
        | nil =>
          intro h
          dsimp only at h
          cases hd : pyStrptimeYMD a with
          | none => rw [hd, Option.none_bind] at h; cases h
          | some ymd =>
            rw [hd, Option.some_bind] at h
            rcases ymd with ⟨y, mo, d⟩
            obtain ⟨hy, hmo, hd'⟩ := pyStrptimeYMD_pos a y mo d hd
            cases hh : pyInt ((pySplitChar ':' b).headD []) with
            | none => rw [hh, Option.none_bind] at h; cases h
            | some hour12 =>
              rw [hh, Option.some_bind] at h
              cases hm : (match pySplitChar ':' b with
                | _ :: m :: _ => pyInt m
                | _ => some 0) with
              | none => rw [hm, Option.none_bind] at h; cases h
              | some minute =>
                rw [hm, Option.some_bind] at h
                dsimp only at h
                split_ifs at h <;>
                  (obtain rfl := (Option.some.inj h).symm
                   unfold datetimeMin encodeDT
                   omega)

/-- C5 (counterexample): `"2025-01-01 9:30 XX"` is not of the claimed
well-formed shape (its meridiem is neither AM nor PM), yet the parser does
not return the minimum instant for it — the unrecognised meridiem falls
through the 12-hour adjustment and the string parses as 09:30. -/
theorem parse_nonminimal_on_malformed_meridiem :
    claimedWellFormed (str "2025-01-01 9:30 XX") = false ∧
    parse_timestamp_for_sorting (str "2025-01-01 9:30 XX") ≠ datetimeMin :=
  ⟨rfl, by decide⟩

/-- C5 (amended): the parser is total — every failure path yields
`datetime.min` rather than raising — the minimum sorts no later than any
parse result, and in particular a string with fewer than three
space-separated fields, or whose date field fails date parsing, returns the
minimum; but not every string outside the spec's `"YYYY-MM-DD H:MM AP"`
shape is malformed to the parser. -/
theorem parse_fail_soft_sentinel :
    (∀ s : Str, datetimeMin ≤ parse_timestamp_for_sorting s) ∧
    (∀ s : Str, (pySplit2 ' ' s).length < 3 →
      parse_timestamp_for_sorting s = datetimeMin) ∧
    (∀ (s a b c : Str), pySplit2 ' ' s = [a, b, c] → pyStrptimeYMD a = none →
      parse_timestamp_for_sorting s = datetimeMin) := by
  refine ⟨?_, ?_, ?_⟩
  · intro s
    unfold parse_timestamp_for_sorting
    cases hc : parse_timestamp_core s with
    | none => exact Nat.le_refl _
    | some v => exact parse_core_ge s v hc
  · intro s h
    unfold parse_timestamp_for_sorting parse_timestamp_core
    cases hs : pySplit2 ' ' s with
    | nil => rfl
    | cons a l1 =>
      cases l1 with
      | nil => rfl
      | cons b l2 =>
        cases l2 with
        | nil => rfl
        | cons c l3 =>
          cases l3 with
          | cons e l4 => rfl
          | nil => rw [hs] at h; simp at h
  · intro s a b c hs hd
    unfold parse_timestamp_for_sorting parse_timestamp_core
    simp only [hs, hd, Option.none_bind]
    rfl

/-- C5 (witness): a one-field string hits the sentinel, and the sentinel
sorts no later than a parse result. -/
theorem parse_fail_soft_example :
    parse_timestamp_for_sorting (str "zzz") = datetimeMin ∧
    datetimeMin ≤ parse_timestamp_for_sorting (str "2025-01-01 9:30 XX") :=
  ⟨parse_fail_soft_sentinel.2.1 (str "zzz") (by decide),
   parse_fail_soft_sentinel.1 (str "2025-01-01 9:30 XX")⟩

/-- Helper: the sort key order bounds the parsed instants. -/
theorem logKeyLe_instant_le {a b : Log} (h : logKeyLe a b) :
    parse_timestamp_for_sorting a.timestamp ≤ parse_timestamp_for_sorting b.timestamp := by
  unfold logKeyLe at h; omega

/-- Helper: the state scan returns its running state unchanged when no
event qualifies. -/
theorem stateScan_of_none (t : Nat) :
    ∀ (ls : List Log) (s : Str),
      (∀ f ∈ ls, ¬ parse_timestamp_for_sorting f.timestamp ≤ t) →
      stateScan t ls s = s := by
  intro ls s h
  cases ls with
  | nil => rfl
  | cons l ls =>
    unfold stateScan
    rw [if_neg (h l (List.mem_cons_self _ _))]

/-- Helper: the state scan is a fixed point when every qualifying event
carries the running state's action already. -/
theorem stateScan_const (t : Nat) :
    ∀ (ls : List Log) (s : Str),
      (∀ x ∈ ls, parse_timestamp_for_sorting x.timestamp ≤ t → x.action = s) →
      stateScan t ls s = s := by
  intro ls
  induction ls with
  | nil => intro s _; rfl
  | cons x ls ih =>
    intro s h
    unfold stateScan
    by_cases hx : parse_timestamp_for_sorting x.timestamp ≤ t
    · rw [if_pos hx, h x (List.mem_cons_self _ _) hx]
      exact ih s (fun m hm => h m (List.mem_cons_of_mem _ hm))
    · rw [if_neg hx]

/-- Helper: on a sorted list, the state scan returns the action of the
qualifying event whose `(instant, id)` key strictly dominates every other
qualifying event's. -/
theorem stateScan_last_qualifying (t : Nat) :
    ∀ (ls : List Log) (s : Str), List.Pairwise logKeyLe ls →
      ∀ e ∈ ls, parse_timestamp_for_sorting e.timestamp ≤ t →
      (∀ f ∈ ls, f ≠ e → parse_timestamp_for_sorting f.timestamp ≤ t → logKeyLt f e) →
      stateScan t ls s = e.action := by
  intro ls
  induction ls with
  | nil => intro s _ e he; exact absurd he (List.not_mem_nil e)
  | cons l ls ih =>
    intro s hpw e he hq hmax
    have hl : ∀ x ∈ ls, logKeyLe l x := fun x hx => (List.pairwise_cons.mp hpw).1 x hx
    have htail := (List.pairwise_cons.mp hpw).2
    rcases List.mem_cons.mp he with rfl | he'
    · unfold stateScan
      rw [if_pos hq]
      apply stateScan_const
      intro x hx hxq
      by_cases hxe : x = e
      · rw [hxe]
      · have hlt := hmax x (List.mem_cons_of_mem _ hx) hxe hxq
        have hle := hl x hx
        unfold logKeyLt at hlt
        unfold logKeyLe at hle
        omega
    · have hlq : parse_timestamp_for_sorting l.timestamp ≤ t :=
        Nat.le_trans (logKeyLe_instant_le (hl e he')) hq
      unfold stateScan
      rw [if_pos hlq]
      exact ih l.action htail e he' hq
        (fun f hf hne hfq => hmax f (List.mem_cons_of_mem _ hf) hne hfq)

/-- C3: `stateAt` returns `OUT` when no event's parsed instant is at most
the target (the boundary is inclusive, so an event at exactly the target
counts), and otherwise returns the action of the qualifying event that is
last in the `(parsed instant, id ascending)` total order — so among events
at the same instant, the larger id determines the state. -/
theorem stateAt_is_last_qualifying_action :
    ∀ (logs : List Log) (ts : Str),
      ((∀ f ∈ logs,
          ¬ parse_timestamp_for_sorting f.timestamp ≤ parse_timestamp_for_sorting ts) →
        get_state_at_timestamp logs ts = strOUT) ∧
      (∀ e ∈ logs,
        parse_timestamp_for_sorting e.timestamp ≤ parse_timestamp_for_sorting ts →
        (∀ f ∈ logs, f ≠ e →
          parse_timestamp_for_sorting f.timestamp ≤ parse_timestamp_for_sorting ts →
          logKeyLt f e) →
        get_state_at_timestamp logs ts = e.action) := by
  intro logs ts
  have hperm : ∀ x : Log, x ∈ sortLogs logs ↔ x ∈ logs :=
    fun x => List.mem_insertionSort logKeyLe
  have hsorted : List.Pairwise logKeyLe (sortLogs logs) :=
    List.sorted_insertionSort logKeyLe logs
  constructor
  · intro hnone
    exact stateScan_of_none _ _ _ (fun f hf => hnone f ((hperm f).mp hf))
  · intro e he hq hmax
    exact stateScan_last_qualifying _ _ _ hsorted e ((hperm e).mpr he) hq
      (fun f hf hne hfq => hmax f ((hperm f).mp hf) hne hfq)

/-- C3 (witness): the spec's boundary example — a single 9:00 AM IN makes
the state at 9:00 AM sharp `IN` (inclusive boundary) and at 8:59 AM
`OUT`. -/
theorem stateAt_boundary_example :
    get_state_at_timestamp [⟨0, str "A", strIN, str "2025-01-01 9:00 AM"⟩]
      (str "2025-01-01 9:00 AM") = strIN ∧
    get_state_at_timestamp [⟨0, str "A", strIN, str "2025-01-01 9:00 AM"⟩]
      (str "2025-01-01 8:59 AM") = strOUT :=
  ⟨(stateAt_is_last_qualifying_action
      [⟨0, str "A", strIN, str "2025-01-01 9:00 AM"⟩] (str "2025-01-01 9:00 AM")).2
      ⟨0, str "A", strIN, str "2025-01-01 9:00 AM"⟩
      (List.mem_singleton.mpr rfl) (by decide)
      (by
        intro f hf hne _
        rw [List.mem_singleton] at hf
        exact absurd hf hne),
   (stateAt_is_last_qualifying_action
      [⟨0, str "A", strIN, str "2025-01-01 9:00 AM"⟩] (str "2025-01-01 8:59 AM")).1
      (by
        intro f hf
        rw [List.mem_singleton] at hf
        subst hf
        decide)⟩
